import Mathlib

/-!
Verification of the metabolicprofiling pipeline (shallow embedding).

The repository is a sequential NHANES metabolic-subtyping pipeline
(`123.py`, `task5_clustering.py`, `task8_model_validation.py`): MICE
imputation, HOMA-IR derivation, z-score standardization, a seeded 70/30
train/test split, K-Means clustering (k = 4) on the standardized training
partition, label assignment over train ∪ test, and inverse-transformation
of the fitted centroids back to clinical units.

Numeric values are modelled as rationals.  The scikit-learn primitives the
scripts invoke (StandardScaler, train_test_split, KMeans) are embedded by
their semantics as invoked by the source: the per-column mean/standard
deviation formulas, the `_handle_zeros_in_scale` zero-variance guard, the
ceil/floor split-size arithmetic of `_validate_shuffle_split`, the input
validation of `KMeans.fit`, Lloyd iteration bounded by `max_iter`, and the
first-minimum `argmin` used by `KMeans.predict`.  The irrational square
root inside the standard deviation is abstracted as a function parameter
`sqrtF` (only the facts `sqrtF 0 = 0` and the zero-replacement guard matter
for any property verified here); the seeded k-means++ initialization is
abstracted to a deterministic choice of the first k training rows, which
preserves every property at stake (validation, iteration bound, and the
fact that centroids are a function of the training partition alone).
-/

namespace MetabolicProfiling

/-- A row of the feature matrix: one participant's numeric features in the
fixed column order `CLUSTER_FEATURES = [HOMA_IR, FI, HbA1c, FBS, TGL,
Creatinine]` (`123.py` line 27). -/
abbrev Row := List ℚ

/-- A feature matrix: an ordered collection of rows, row order carrying the
implicit index used to re-attach labels. -/
abbrev Matrix := List Row

/-- Number of feature columns, read off the first row (scikit-learn requires
a rectangular array; `Rectangular` below states that). -/
def numCols (X : Matrix) : ℕ := (X.headD []).length

/-- All rows have the width announced by the first row. -/
def Rectangular (X : Matrix) : Prop := ∀ r ∈ X, r.length = numCols X

/-- The j-th column of the matrix. -/
def column (X : Matrix) (j : ℕ) : List ℚ := X.map (fun r => r.getD j 0)

/-- Arithmetic mean of a column (StandardScaler `mean_`). -/
def colMean (xs : List ℚ) : ℚ := xs.sum / xs.length

/-- Population variance of a column (StandardScaler `var_`, ddof = 0). -/
def colVar (xs : List ℚ) : ℚ :=
  ((xs.map (fun x => (x - colMean xs) ^ 2)).sum) / xs.length

/-- scikit-learn `_handle_zeros_in_scale`: a zero scale is replaced by 1, so
the transform never divides by zero. -/
def handleZeros (s : ℚ) : ℚ := if s = 0 then 1 else s

/-- Embeds `StandardScaler.fit` (`123.py` line 125-126, `task5_clustering.py` lines
54-55): per feature column the pair (mean_, scale_), where scale_ is the
standard deviation with `_handle_zeros_in_scale` applied.  `sqrtF` stands
for the real square root on the (non-negative) variance. -/
def fitScalerWith (sqrtF : ℚ → ℚ) (X : Matrix) : List (ℚ × ℚ) :=
  (List.range (numCols X)).map
    (fun j => (colMean (column X j), handleZeros (sqrtF (colVar (column X j)))))

/-- Embeds `StandardScaler.transform` on one row: (x - mean) / scale per feature. -/
def transformRow (ps : List (ℚ × ℚ)) (r : Row) : Row :=
  List.zipWith (fun p x => (x - p.1) / p.2) ps r

/-- Embeds `StandardScaler.transform` on a matrix. -/
def transformM (ps : List (ℚ × ℚ)) (X : Matrix) : Matrix :=
  X.map (transformRow ps)

/-- Embeds `StandardScaler.inverse_transform` on one row: z * scale + mean. -/
def inverseTransformRow (ps : List (ℚ × ℚ)) (z : Row) : Row :=
  List.zipWith (fun p x => x * p.2 + p.1) ps z

/-- Embeds `StandardScaler.inverse_transform` on a matrix (`123.py` line 174,
`task5_clustering.py` line 135). -/
def inverseTransformM (ps : List (ℚ × ℚ)) (Z : Matrix) : Matrix :=
  Z.map (inverseTransformRow ps)

/-- HOMA-IR derivation (`123.py` line 106, `task5_clustering.py` line 41):
(fasting insulin × fasting glucose) / 405. -/
def homaIR (fi fbs : ℚ) : ℚ := fi * fbs / 405

/-- One participant record after renaming (`123.py` lines 53-60). -/
structure Record where
  age : ℚ
  fi : ℚ
  hba1c : ℚ
  fbs : ℚ
  tgl : ℚ
  creatinine : ℚ
  homa : ℚ
deriving Repr, DecidableEq

/-- The columns handed to IterativeImputer (`123.py` line 73): HOMA_IR is
not among them. -/
def imputationCols : List String := ["FI", "HbA1c", "FBS", "TGL", "Creatinine"]

/-- Task 2 (`123.py` line 106): overwrite the HOMA_IR column of every record
with (FI × FBS) / 405, after imputation has filled FI and FBS. -/
def addHomaIR (rs : List Record) : List Record :=
  rs.map (fun r => { r with homa := homaIR r.fi r.fbs })

/-- Tasks 1-2 composed: records are imputed first (IterativeImputer is
external; it enters as the function parameter `imputeFn`), then HOMA_IR is
recomputed from the imputed FI and FBS. -/
def task1Then2 (imputeFn : List Record → List Record) (rs : List Record) :
    List Record :=
  addHomaIR (imputeFn rs)

/-- Test-partition size for `train_test_split(test_size=0.3)`
(scikit-learn `_validate_shuffle_split`): n_test = ⌈0.3 · n⌉, here as
(3n + 9) / 10 in natural-number arithmetic; the train partition is the
remaining n - n_test rows. -/
def nTest (n : ℕ) : ℕ := (3 * n + 9) / 10

/-- The seeded shuffle of `train_test_split(random_state=42)`: the rows of X
reordered by the permutation `perm` of row indices that the seeded RNG
produces. -/
def permuteRows (X : Matrix) (perm : List ℕ) : Matrix :=
  perm.map (fun i => X.getD i [])

/-- Embeds `train_test_split` (`123.py` lines 131-133): the shuffled rows are cut
after the first n_test of them, which form the test partition; the rest form
the train partition.  Returns (train, test). -/
def splitRows (X : Matrix) (perm : List ℕ) : Matrix × Matrix :=
  ((permuteRows X perm).drop (nTest X.length),
   (permuteRows X perm).take (nTest X.length))

/-- The same cut on the index lists themselves (the Partitioner contract of
the spec): (train_indices, test_indices). -/
def splitIndices (n : ℕ) (perm : List ℕ) : List ℕ × List ℕ :=
  (perm.drop (nTest n), perm.take (nTest n))

/-- Squared Euclidean distance between a point and a centroid (KMeans
compares squared distances; the argmin is the same as for the distances
themselves). -/
def distSq (x c : Row) : ℚ := (List.zipWith (fun a b => (a - b) ^ 2) x c).sum

/-- Index and value of the first minimum of a list: numpy/scikit-learn
`argmin` semantics, where only a strictly smaller later value displaces the
current best, so ties go to the lowest index. -/
def argminAux : List ℚ → Option (ℕ × ℚ)
  | [] => none
  | d :: ds =>
    match argminAux ds with
    | none => some (0, d)
    | some (j, m) => if m < d then some (j + 1, m) else some (0, d)

/-- Index of the first minimum (0 on the empty list). -/
def argminIdx (l : List ℚ) : ℕ := (argminAux l).elim 0 Prod.fst

/-- Embeds `KMeans.predict` on one point: the index of the nearest centroid. -/
def assignOne (cs : List Row) (x : Row) : ℕ := argminIdx (cs.map (distSq x))

/-- Embeds `KMeans.predict` on a matrix (`123.py` line 160,
`task5_clustering.py` line 97). -/
def assignLabels (cs : List Row) (X : Matrix) : List ℕ := X.map (assignOne cs)

/-- Mean point of a non-empty cluster, coordinate by coordinate. -/
def centroidOf (dim : ℕ) (pts : Matrix) : Row :=
  (List.range dim).map (fun j => colMean (column pts j))

/-- One Lloyd relocation step: assign every training point to its nearest
centroid, then move each centroid to the mean of its cluster (an empty
cluster keeps its centroid). -/
def lloydStep (X : Matrix) (cs : List Row) : List Row :=
  cs.mapIdx (fun i c =>
    let pts := X.filter (fun x => assignOne cs x = i)
    if pts.isEmpty then c else centroidOf c.length pts)

/-- Lloyd iteration, bounded by the fuel `max_iter`: stop early when the
centroids no longer move.  Returns the final centroids and the number of
relocation iterations performed (KMeans `n_iter_`). -/
def lloydLoop (X : Matrix) : ℕ → List Row → List Row × ℕ
  | 0, cs => (cs, 0)
  | fuel + 1, cs =>
    let cs' := lloydStep X cs
    if cs' = cs then (cs', 1)
    else
      let r := lloydLoop X fuel cs'
      (r.1, r.2 + 1)

/-- The failure modes of `KMeans.fit` as invoked by the scripts:
`invalidConfiguration` for a non-positive n_clusters (scikit-learn parameter
validation; with k : ℕ non-positive means k = 0), `emptyInput` for a
zero-row matrix (`check_array`), `sampleCountTooSmall` when n_samples <
n_clusters. -/
inductive FitError where
  | invalidConfiguration : FitError
  | emptyInput : FitError
  | sampleCountTooSmall : FitError
deriving Repr, DecidableEq

/-- Embeds `KMeans(n_clusters=k, max_iter=maxIter).fit(X)` (`123.py` lines 151-152,
`task5_clustering.py` lines 77-82): validate the configuration, then run
bounded Lloyd iteration.  The seeded k-means++ initialization is abstracted
to the first k training rows — a deterministic function of the training
matrix alone.  On success returns the centroids and `n_iter_`. -/
def kmeansFit (k maxIter : ℕ) (X : Matrix) : Except FitError (List Row × ℕ) :=
  if k = 0 then .error .invalidConfiguration
  else if X.isEmpty then .error .emptyInput
  else if X.length < k then .error .sampleCountTooSmall
  else .ok (lloydLoop X maxIter (X.take k))

/-- Everything Tasks 3 and 5 of `123.py` produce. -/
structure PipelineOut where
  scalerParams : List (ℚ × ℚ)
  trainScaled : Matrix
  testScaled : Matrix
  centroids : List Row
  nIter : ℕ
  labels : List ℕ
  unscaledCenters : Matrix
deriving Repr, DecidableEq

/-- Tasks 3 and 5 of `123.py` (lines 120-177), line by line: fit the scaler
once on the full unscaled matrix and standardize it (line 125-126); split
the standardized rows 70/30 by the seeded shuffle (lines 131-133); fit
K-Means with k = 4, max_iter = 300 on the standardized training partition
only (lines 151-152); predict labels for train ++ test in that
concatenation order (lines 159-160); inverse-transform the fitted centroids
with the same scaler (line 174). -/
def runPipeline (sqrtF : ℚ → ℚ) (perm : List ℕ) (X_unscaled : Matrix) :
    Except FitError PipelineOut :=
  let params := fitScalerWith sqrtF X_unscaled
  let X_scaled := transformM params X_unscaled
  let parts := splitRows X_scaled perm
  match kmeansFit 4 300 parts.1 with
  | .error e => .error e
  | .ok (cs, n) =>
    .ok { scalerParams := params
          trainScaled := parts.1
          testScaled := parts.2
          centroids := cs
          nIter := n
          labels := assignLabels cs (parts.1 ++ parts.2)
          unscaledCenters := inverseTransformM params cs }

/-- Embeds `task5_clustering.py` lines 102-108 (same shape in
`task8_model_validation.py` lines 54-59): when the label vector and the
unscaled matrix disagree in length, truncate both to the first
min(len(labels), len(matrix)) entries and continue; otherwise pass both
through unchanged. -/
def alignLabels (labels : List ℕ) (X : Matrix) : List ℕ × Matrix :=
  if labels.length = X.length then (labels, X)
  else
    (labels.take (min labels.length X.length),
     X.take (min labels.length X.length))

/-! ### Helper lemmas -/

/-- The Lloyd loop performs at most `fuel` relocation iterations. -/
theorem lloydLoop_iter_le (X : Matrix) :
    ∀ (fuel : ℕ) (cs : List Row), (lloydLoop X fuel cs).2 ≤ fuel := by
  intro fuel
  induction fuel with
  | zero => intro cs; simp [lloydLoop]
  | succ m ih =>
    intro cs
    simp only [lloydLoop]
    split
    · omega
    · have := ih (lloydStep X cs)
      omega

/-! ### Claim theorems -/

/-- Claim C4: the derived index HOMA_IR is computed as (FI * FBS) / 405 for
every record, and for FI = 10, FBS = 100 the computed value (10*100)/405 =
200/81 agrees with 2.469 to at least 3 decimal places. -/
theorem claim_C4 :
    (∀ rs : List Record, ∀ r ∈ addHomaIR rs, r.homa = homaIR r.fi r.fbs) ∧
    homaIR 10 100 = 200 / 81 ∧ |homaIR 10 100 - 2469 / 1000| < 1 / 2000 := by
  refine ⟨?_, by norm_num [homaIR], ?_⟩
  · intro rs r hr
    simp only [addHomaIR, List.mem_map] at hr
    obtain ⟨a, _, rfl⟩ := hr
    rfl
  · rw [homaIR, abs_lt]
    norm_num

/-- Instantiation of claim C4's universally quantified part on a concrete
record list. -/
theorem claim_C4_witness :
    ({ age := 40, fi := 10, hba1c := 5, fbs := 100, tgl := 120,
       creatinine := 1, homa := homaIR 10 100 } : Record).homa =
      homaIR 10 100 :=
  claim_C4.1 [{ age := 40, fi := 10, hba1c := 5, fbs := 100, tgl := 120,
                creatinine := 1, homa := 0 }]
    { age := 40, fi := 10, hba1c := 5, fbs := 100, tgl := 120,
      creatinine := 1, homa := homaIR 10 100 }
    (List.Mem.head _)

/-- Claim C5: the centroid-fitting operation fails with a configuration
error whenever k ≤ 0 (k = 0 over ℕ), the training matrix is empty, or k
exceeds the number of training rows — it raises rather than silently
truncating k. -/
theorem claim_C5 (k maxIter : ℕ) (X : Matrix)
    (h : k = 0 ∨ X = [] ∨ X.length < k) :
    ∃ e : FitError, kmeansFit k maxIter X = Except.error e := by
  unfold kmeansFit
  by_cases hk : k = 0
  · exact ⟨.invalidConfiguration, by simp [hk]⟩
  · by_cases hX : X.isEmpty
    · exact ⟨.emptyInput, by simp [hk, hX]⟩
    · have hlt : X.length < k := by
        rcases h with h | h | h
        · exact absurd h hk
        · exact absurd (by simp [h]) hX
        · exact h
      exact ⟨.sampleCountTooSmall, by simp [hk, hX, hlt, Nat.not_le.mpr hlt]⟩

/-- Claim C5 applied concretely: k = 5 exceeds the 2 training rows and fit
reports an error. -/
theorem claim_C5_witness :
    ∃ e : FitError,
      kmeansFit 5 300 [[(0 : ℚ)], [1]] = Except.error e :=
  claim_C5 5 300 [[(0 : ℚ)], [1]] (by right; right; decide)

/-- Claim C9: the iterative centroid fit always terminates, performing at
most max_iter relocation iterations (the reported iteration count never
exceeds max_iter, in particular 300 at the default). -/
theorem claim_C9 (k maxIter : ℕ) (X : Matrix) (cs : List Row) (n : ℕ)
    (h : kmeansFit k maxIter X = Except.ok (cs, n)) : n ≤ maxIter := by
  unfold kmeansFit at h
  split at h
  · exact absurd h (by simp)
  · split at h
    · exact absurd h (by simp)
    · split at h
      · exact absurd h (by simp)
      · have h' : lloydLoop X maxIter (X.take k) = (cs, n) := Except.ok.inj h
        have hb := lloydLoop_iter_le X maxIter (X.take k)
        rw [h'] at hb
        exact hb

/-- The one-point, k = 1 fit evaluates to a converged run of one
iteration. -/
theorem kmeansFit_onePoint :
    kmeansFit 1 300 [[(0 : ℚ)]] = Except.ok ([[(0 : ℚ)]], 1) := by
  have hs : lloydStep [[(0 : ℚ)]] [[(0 : ℚ)]] = [[(0 : ℚ)]] := by
    simp [lloydStep, assignOne, distSq, argminIdx, argminAux, centroidOf,
      column, colMean, List.filter]
  have hl : lloydLoop [[(0 : ℚ)]] 300 [[(0 : ℚ)]] = ([[(0 : ℚ)]], 1) := by
    rw [show (300 : ℕ) = 299 + 1 from rfl]
    simp [lloydLoop, hs]
  simp [kmeansFit, hl]

/-- Claim C9 applied concretely: a 1-point, k = 1 fit converges after one
relocation iteration, within the 300-iteration bound. -/
theorem claim_C9_witness :
    kmeansFit 1 300 [[(0 : ℚ)]] = Except.ok ([[(0 : ℚ)]], 1) ∧
      (1 : ℕ) ≤ 300 :=
  ⟨kmeansFit_onePoint, claim_C9 1 300 [[(0 : ℚ)]] [[0]] 1 kmeansFit_onePoint⟩

/-- Claim C10: when the label vector's length differs from the matrix's row
count, the labeling stage does not abort — it truncates both to the first
min(len(labels), len(matrix)) rows and continues, so the emitted labeled
dataset covers only a strict prefix of the larger input. -/
theorem claim_C10 (labels : List ℕ) (X : Matrix)
    (h : labels.length ≠ X.length) :
    alignLabels labels X =
      (labels.take (min labels.length X.length),
       X.take (min labels.length X.length)) ∧
    (alignLabels labels X).1.length = min labels.length X.length ∧
    (alignLabels labels X).2.length = min labels.length X.length ∧
    min labels.length X.length < max labels.length X.length := by
  unfold alignLabels
  rw [if_neg h]
  refine ⟨rfl, ?_, ?_, ?_⟩
  · simp only [List.length_take]; omega
  · simp only [List.length_take]; omega
  · omega

/-- Claim C10 applied concretely: three labels against a two-row matrix get
truncated to the first two entries of each. -/
theorem claim_C10_witness :
    alignLabels [0, 1, 2] [[(5 : ℚ)], [6]] =
      ([0, 1, 2].take (min ([0, 1, 2] : List ℕ).length
         ([[(5 : ℚ)], [6]] : Matrix).length),
       ([[(5 : ℚ)], [6]] : Matrix).take (min ([0, 1, 2] : List ℕ).length
         ([[(5 : ℚ)], [6]] : Matrix).length)) ∧
    (alignLabels [0, 1, 2] [[(5 : ℚ)], [6]]).1.length =
      min ([0, 1, 2] : List ℕ).length ([[(5 : ℚ)], [6]] : Matrix).length ∧
    (alignLabels [0, 1, 2] [[(5 : ℚ)], [6]]).2.length =
      min ([0, 1, 2] : List ℕ).length ([[(5 : ℚ)], [6]] : Matrix).length ∧
    min ([0, 1, 2] : List ℕ).length ([[(5 : ℚ)], [6]] : Matrix).length <
      max ([0, 1, 2] : List ℕ).length ([[(5 : ℚ)], [6]] : Matrix).length :=
  claim_C10 [0, 1, 2] [[(5 : ℚ)], [6]] (by decide)

/-- Claim C2: for every row count n and seeded shuffle (any permutation of
the row indices 0..n-1), the 70/30 partitioner returns two index lists that
are disjoint and together exhaust {0..n-1}, the train list of size
⌊0.7 · n⌋ and the test list the remainder. -/
theorem claim_C2 (n : ℕ) (perm : List ℕ)
    (h : perm.Perm (List.range n)) :
    (splitIndices n perm).1.length = 7 * n / 10 ∧
    (splitIndices n perm).2.length = n - 7 * n / 10 ∧
    (splitIndices n perm).1.Disjoint (splitIndices n perm).2 ∧
    ((splitIndices n perm).1 ++ (splitIndices n perm).2).Perm
      (List.range n) := by
  have hlen : perm.length = n := by simpa using h.length_eq
  have hnd : perm.Nodup := h.nodup_iff.mpr (List.nodup_range n)
  refine ⟨?_, ?_, ?_, ?_⟩
  · simp only [splitIndices, List.length_drop, hlen]
    unfold nTest
    omega
  · simp only [splitIndices, List.length_take, hlen]
    unfold nTest
    omega
  · exact (List.disjoint_take_drop hnd le_rfl).symm
  · have h1 : ((splitIndices n perm).1 ++ (splitIndices n perm).2).Perm
        (perm.take (nTest n) ++ perm.drop (nTest n)) := List.perm_append_comm
    rw [List.take_append_drop] at h1
    exact h1.trans h

/-- Claim C2 applied concretely: n = 5 with the shuffle [3,0,4,1,2] yields
train [4,1,2] (size ⌊3.5⌋ = 3) and test [3,0] (size 2), disjoint and
exhaustive. -/
theorem claim_C2_witness :
    (splitIndices 5 [3, 0, 4, 1, 2]).1.length = 7 * 5 / 10 ∧
    (splitIndices 5 [3, 0, 4, 1, 2]).2.length = 5 - 7 * 5 / 10 ∧
    (splitIndices 5 [3, 0, 4, 1, 2]).1.Disjoint
      (splitIndices 5 [3, 0, 4, 1, 2]).2 ∧
    ((splitIndices 5 [3, 0, 4, 1, 2]).1 ++
      (splitIndices 5 [3, 0, 4, 1, 2]).2).Perm (List.range 5) :=
  claim_C2 5 [3, 0, 4, 1, 2] (by decide)

/-- The zero-replacement guard never returns a zero scale. -/
theorem handleZeros_ne_zero (s : ℚ) : handleZeros s ≠ 0 := by
  unfold handleZeros
  split
  · exact one_ne_zero
  · assumption

/-- The fitted scaler has one (mean, scale) pair per feature column. -/
theorem fitScalerWith_length (sqrtF : ℚ → ℚ) (X : Matrix) :
    (fitScalerWith sqrtF X).length = numCols X := by
  simp [fitScalerWith]

/-- Every fitted scale is non-zero, thanks to the zero-replacement guard. -/
theorem fitScalerWith_scale_ne_zero (sqrtF : ℚ → ℚ) (X : Matrix) :
    ∀ p ∈ fitScalerWith sqrtF X, p.2 ≠ 0 := by
  intro p hp
  simp only [fitScalerWith, List.mem_map, List.mem_range] at hp
  obtain ⟨j, _, rfl⟩ := hp
  exact handleZeros_ne_zero _

/-- Row-level round trip: with as many parameter pairs as entries and only
non-zero scales, inverse_transform undoes transform exactly. -/
theorem inverseTransformRow_transformRow (ps : List (ℚ × ℚ)) (r : Row)
    (hlen : ps.length = r.length) (hs : ∀ p ∈ ps, p.2 ≠ 0) :
    inverseTransformRow ps (transformRow ps r) = r := by
  induction ps generalizing r with
  | nil =>
    have : r = [] := by
      cases r with
      | nil => rfl
      | cons a as => simp at hlen
    subst this
    rfl
  | cons p ps ih =>
    cases r with
    | nil => simp at hlen
    | cons x xs =>
      simp only [transformRow, inverseTransformRow, List.zipWith_cons_cons]
      have hp2 : p.2 ≠ 0 := hs p (List.mem_cons_self p ps)
      rw [div_mul_cancel₀ _ hp2, sub_add_cancel]
      have htail := ih xs (by simpa using hlen)
        (fun q hq => hs q (List.mem_cons_of_mem p hq))
      simp only [transformRow, inverseTransformRow] at htail
      rw [htail]

/-- Claim C3: for every rectangular matrix M and the scaling parameters fit
on M, applying inverse_transform after transform returns M exactly (round
trip in exact arithmetic, hence with round-trip relative error 0 < 1e-6 on
every feature column, in particular those with non-zero variance). -/
theorem claim_C3 (sqrtF : ℚ → ℚ) (X : Matrix) (h : Rectangular X) :
    inverseTransformM (fitScalerWith sqrtF X)
      (transformM (fitScalerWith sqrtF X) X) = X := by
  unfold inverseTransformM transformM
  rw [List.map_map]
  have hrow : ∀ r ∈ X,
      (inverseTransformRow (fitScalerWith sqrtF X) ∘
        transformRow (fitScalerWith sqrtF X)) r = r := by
    intro r hr
    exact inverseTransformRow_transformRow _ r
      (by rw [fitScalerWith_length, h r hr])
      (fitScalerWith_scale_ne_zero sqrtF X)
  rw [List.map_congr_left hrow]
  exact List.map_id' X

/-- Claim C3 applied concretely to a 2 × 1 matrix. -/
theorem claim_C3_witness :
    inverseTransformM (fitScalerWith id [[(1 : ℚ)], [3]])
      (transformM (fitScalerWith id [[(1 : ℚ)], [3]]) [[(1 : ℚ)], [3]]) =
      [[(1 : ℚ)], [3]] :=
  claim_C3 id [[(1 : ℚ)], [3]] (by unfold Rectangular; decide)

/-- The j-th fitted parameter pair, explicitly. -/
theorem fitScalerWith_getD (sqrtF : ℚ → ℚ) (X : Matrix) (j : ℕ)
    (hj : j < numCols X) :
    (fitScalerWith sqrtF X).getD j (0, 0) =
      (colMean (column X j), handleZeros (sqrtF (colVar (column X j)))) := by
  unfold fitScalerWith
  rw [List.getD_eq_getElem _ _ (by simpa using hj)]
  simp

/-- Claim C7: if a feature column of the matrix the scaler was fit on has
zero variance (zero standard deviation), the transform handles it
explicitly: the fitted scale is never zero (so no division by zero ever
happens), a zero-variance column's scale is replaced by 1, and on such a
column the transform passes the centered values through undivided. -/
theorem claim_C7 (sqrtF : ℚ → ℚ) (X : Matrix) (h0 : sqrtF 0 = 0) :
    (∀ p ∈ fitScalerWith sqrtF X, p.2 ≠ 0) ∧
    (∀ j, j < numCols X → colVar (column X j) = 0 →
      (fitScalerWith sqrtF X).getD j (0, 0) = (colMean (column X j), 1)) ∧
    (∀ j, j < numCols X → colVar (column X j) = 0 →
      ∀ r : Row, r.length = numCols X →
        (transformRow (fitScalerWith sqrtF X) r).getD j 0 =
          r.getD j 0 - colMean (column X j)) := by
  have hone : ∀ j, colVar (column X j) = 0 →
      handleZeros (sqrtF (colVar (column X j))) = 1 := by
    intro j hv
    rw [hv, h0]
    simp [handleZeros]
  refine ⟨fitScalerWith_scale_ne_zero sqrtF X, ?_, ?_⟩
  · intro j hj hv
    rw [fitScalerWith_getD sqrtF X j hj, hone j hv]
  · intro j hj hv r hr
    have hps : j < (fitScalerWith sqrtF X).length := by
      rw [fitScalerWith_length]
      exact hj
    have hrj : j < r.length := by
      rw [hr]
      exact hj
    have hpj : (fitScalerWith sqrtF X)[j] = (colMean (column X j), 1) := by
      have h1 := fitScalerWith_getD sqrtF X j hj
      rw [List.getD_eq_getElem _ _ hps] at h1
      rw [h1, hone j hv]
    unfold transformRow
    rw [List.getD_eq_getElem _ _
        (by simp only [List.length_zipWith, fitScalerWith_length]; omega),
      List.getElem_zipWith, hpj, List.getD_eq_getElem _ _ hrj]
    simp

/-- Claim C7 applied concretely: the constant column of [[1],[1]] has zero
variance; its fitted scale is 1 and the transform of the row [5] at that
column is 5 - mean. -/
theorem claim_C7_witness :
    (fitScalerWith id [[(1 : ℚ)], [1]]).getD 0 (0, 0) =
      (colMean (column [[(1 : ℚ)], [1]] 0), 1) ∧
    (transformRow (fitScalerWith id [[(1 : ℚ)], [1]]) [5]).getD 0 0 =
      ([5] : Row).getD 0 0 - colMean (column [[(1 : ℚ)], [1]] 0) :=
  ⟨(claim_C7 id [[(1 : ℚ)], [1]] rfl).2.1 0 (by decide)
      (by norm_num [colVar, colMean, column]),
   (claim_C7 id [[(1 : ℚ)], [1]] rfl).2.2 0 (by decide)
      (by norm_num [colVar, colMean, column]) [5] (by decide)⟩

/-- Full specification of the first-minimum scan: on a non-empty list it
returns an in-range index j holding the value m; m is a lower bound of the
whole list; and every entry strictly before j is strictly greater than m,
so j is the first position achieving the minimum. -/
theorem argminAux_spec (l : List ℚ) (hl : l ≠ []) :
    ∃ j m, argminAux l = some (j, m) ∧ j < l.length ∧ l.getD j 0 = m ∧
      (∀ i, i < l.length → m ≤ l.getD i 0) ∧
      (∀ i, i < j → m < l.getD i 0) := by
  induction l with
  | nil => exact absurd rfl hl
  | cons d ds ih =>
    by_cases hds : ds = []
    · subst hds
      refine ⟨0, d, rfl, by simp, rfl, ?_, by omega⟩
      intro i hi
      cases i with
      | zero => simp
      | succ i' => simp at hi
    · obtain ⟨j, m, heq, hjlt, hval, hmin, hstrict⟩ := ih hds
      by_cases hcmp : m < d
      · refine ⟨j + 1, m, ?_, by simpa using hjlt, by simpa using hval, ?_, ?_⟩
        · simp only [argminAux, heq]
          rw [if_pos hcmp]
        · intro i hi
          cases i with
          | zero => simpa using le_of_lt hcmp
          | succ i' =>
            simp only [List.getD_cons_succ]
            exact hmin i' (by simpa using hi)
        · intro i hi
          cases i with
          | zero => simpa using hcmp
          | succ i' =>
            simp only [List.getD_cons_succ]
            exact hstrict i' (by omega)
      · refine ⟨0, d, ?_, by simp, by simp, ?_, by omega⟩
        · simp only [argminAux, heq]
          rw [if_neg hcmp]
        · intro i hi
          cases i with
          | zero => simp
          | succ i' =>
            simp only [List.getD_cons_zero, List.getD_cons_succ]
            exact le_trans (not_lt.mp hcmp) (hmin i' (by simpa using hi))

/-- Claim C6: label assignment returns an in-range centroid index whose
distance is minimal, and whenever a point is equidistant from two or more
minimal-distance centroids the assigned label is the lowest such index —
deterministically, for every input point. -/
theorem claim_C6 (cs : List Row) (x : Row) (hcs : cs ≠ []) :
    assignOne cs x < cs.length ∧
    (∀ i, i < cs.length →
      distSq x (cs.getD (assignOne cs x) []) ≤ distSq x (cs.getD i [])) ∧
    (∀ i, i < cs.length →
      distSq x (cs.getD i []) = distSq x (cs.getD (assignOne cs x) []) →
      assignOne cs x ≤ i) := by
  have hmap : cs.map (distSq x) ≠ [] := by
    simpa using hcs
  obtain ⟨j, m, heq, hjlt, hval, hmin, hstrict⟩ :=
    argminAux_spec (cs.map (distSq x)) hmap
  have hassign : assignOne cs x = j := by
    unfold assignOne argminIdx
    rw [heq]
    rfl
  have hjcs : j < cs.length := by simpa using hjlt
  have hgetD : ∀ i, i < cs.length →
      (cs.map (distSq x)).getD i 0 = distSq x (cs.getD i []) := by
    intro i hi
    rw [List.getD_eq_getElem _ _ (by simpa using hi),
      List.getD_eq_getElem _ _ hi, List.getElem_map]
  have hvald : distSq x (cs.getD j []) = m := by
    rw [← hgetD j hjcs]
    exact hval
  refine ⟨by rw [hassign]; exact hjcs, ?_, ?_⟩
  · intro i hi
    rw [hassign, hvald]
    rw [← hgetD i hi]
    exact hmin i (by simpa using hi)
  · intro i hi htie
    rw [hassign] at htie ⊢
    by_contra hlt
    have hij : i < j := by omega
    have := hstrict i hij
    rw [hgetD i hi, htie, hvald] at this
    exact lt_irrefl m this

/-- Claim C6 applied concretely: the point [1] is equidistant from the
centroids [0] and [2]; assignment picks index 0, the lowest. -/
theorem claim_C6_witness :
    assignOne [[(0 : ℚ)], [2]] [1] < 2 ∧
    assignOne [[(0 : ℚ)], [2]] [1] ≤ 1 :=
  ⟨(claim_C6 [[(0 : ℚ)], [2]] [1] (by decide)).1,
   (claim_C6 [[(0 : ℚ)], [2]] [1] (by decide)).2.2 1 (by decide)
     (by norm_num [assignOne, distSq, argminIdx, argminAux])⟩

/-- Claim C8 (amended): HOMA_IR is always recomputed deterministically from
FI and FBS after imputation, HOMA_IR itself is never among the directly
imputed columns, and the derived value is non-negative for every record
whose (imputed) FI and FBS are non-negative. -/
theorem claim_C8 :
    ("HOMA_IR" ∉ imputationCols) ∧
    (∀ (imputeFn : List Record → List Record) (rs : List Record),
      ∀ r ∈ task1Then2 imputeFn rs,
        r.homa = homaIR r.fi r.fbs ∧
        (0 ≤ r.fi → 0 ≤ r.fbs → 0 ≤ r.homa)) := by
  refine ⟨by decide, ?_⟩
  intro imputeFn rs r hr
  simp only [task1Then2, addHomaIR, List.mem_map] at hr
  obtain ⟨a, _, rfl⟩ := hr
  refine ⟨rfl, ?_⟩
  intro h1 h2
  exact div_nonneg (mul_nonneg h1 h2) (by norm_num)

/-- Claim C8 (amended) applied concretely: a record with FI = 10,
FBS = 100 comes out of Task 2 with a recomputed, non-negative HOMA_IR. -/
theorem claim_C8_witness :
    ({ age := 40, fi := 10, hba1c := 5, fbs := 100, tgl := 120,
       creatinine := 1, homa := homaIR 10 100 } : Record).homa =
      homaIR 10 100 ∧
    (0 : ℚ) ≤
      ({ age := 40, fi := 10, hba1c := 5, fbs := 100, tgl := 120,
         creatinine := 1, homa := homaIR 10 100 } : Record).homa := by
  have h := claim_C8.2 id
    [{ age := 40, fi := 10, hba1c := 5, fbs := 100, tgl := 120,
       creatinine := 1, homa := 0 }]
    { age := 40, fi := 10, hba1c := 5, fbs := 100, tgl := 120,
      creatinine := 1, homa := homaIR 10 100 }
    (List.Mem.head _)
  exact ⟨h.1, h.2 (by norm_num) (by norm_num)⟩

/-- Counterexample to claim C8 as stated: nothing in the pipeline
constrains the (imputed) FI and FBS to be non-negative; a record carrying
FI = -1, FBS = 100 leaves Task 2 with the negative HOMA_IR value
(-1 · 100)/405 < 0. -/
theorem claim_C8_counterexample :
    ¬ (∀ (imputeFn : List Record → List Record) (rs : List Record),
        ∀ r ∈ task1Then2 imputeFn rs, 0 ≤ r.homa) := by
  intro h
  have hc := h id
    [{ age := 40, fi := -1, hba1c := 5, fbs := 100, tgl := 120,
       creatinine := 1, homa := 0 }]
    { age := 40, fi := -1, hba1c := 5, fbs := 100, tgl := 120,
      creatinine := 1, homa := homaIR (-1) 100 }
    (List.Mem.head _)
  norm_num [homaIR] at hc

/-! ### Helper lemmas for claim C1 -/

/-- Mapping `getD` over the index range of a list reproduces the list. -/
theorem range_length_map_getD {α : Type} (l : List α) (d : α) :
    (List.range l.length).map (fun i => l.getD i d) = l := by
  induction l with
  | nil => rfl
  | cons a as ih =>
    rw [List.length_cons, List.range_succ_eq_map, List.map_cons,
      List.map_map]
    simp only [Function.comp_def, List.getD_cons_zero, List.getD_cons_succ]
    rw [ih]

/-- Shuffling by a permutation of the row indices permutes the rows. -/
theorem permuteRows_perm (X : Matrix) (perm : List ℕ)
    (h : perm.Perm (List.range X.length)) : (permuteRows X perm).Perm X := by
  have hm := h.map (fun i => X.getD i [])
  rwa [range_length_map_getD] at hm

/-- The column count is stable under row permutation of a rectangular
matrix. -/
theorem numCols_of_perm (X Y : Matrix) (h : X.Perm Y)
    (hX : Rectangular X) : numCols Y = numCols X := by
  cases Y with
  | nil =>
    have hXnil : X = [] := h.eq_nil
    rw [hXnil]
  | cons r rs =>
    have hr : r ∈ X := h.mem_iff.mpr (List.mem_cons_self r rs)
    exact hX r hr

/-- Column means are invariant under permutation of the entries. -/
theorem colMean_perm {xs ys : List ℚ} (h : xs.Perm ys) :
    colMean xs = colMean ys := by
  unfold colMean
  rw [h.sum_eq, h.length_eq]

/-- Column variances are invariant under permutation of the entries. -/
theorem colVar_perm {xs ys : List ℚ} (h : xs.Perm ys) :
    colVar xs = colVar ys := by
  unfold colVar
  rw [colMean_perm h, (h.map _).sum_eq, h.length_eq]

/-- The fitted scaling parameters depend only on the population of rows,
not their order: fitting on any reordering of the full matrix (for example
train ++ test) gives the same parameters. -/
theorem fitScalerWith_perm (sqrtF : ℚ → ℚ) (X Y : Matrix) (h : X.Perm Y)
    (hX : Rectangular X) :
    fitScalerWith sqrtF X = fitScalerWith sqrtF Y := by
  unfold fitScalerWith
  rw [numCols_of_perm X Y h hX]
  apply List.map_congr_left
  intro j hj
  have hc : (column X j).Perm (column Y j) := h.map _
  rw [colMean_perm hc, colVar_perm hc]

/-- Claim C1: in a pipeline run the scaling parameters are fit exactly once,
on the full feature matrix (first conjunct: the single parameter value
`fitScalerWith sqrtF X`, fit on all of X, is the one recorded in the output,
the one the forward transform used, and the one applied by the centroid
inverse-transform); the k-means centroid model is fit only on the
standardized training partition (the `kmeansFit` argument is
`(splitRows (transformM params X) perm).1`, the train side of the split);
and "full matrix" genuinely means all records, train and test together
(second conjunct: fitting the scaler on any reordering of the rows — e.g.
train ++ test — yields the same parameters). -/
theorem claim_C1 (sqrtF : ℚ → ℚ) (perm : List ℕ) (X : Matrix) :
    (runPipeline sqrtF perm X =
      (kmeansFit 4 300
          (splitRows (transformM (fitScalerWith sqrtF X) X) perm).1).map
        (fun p =>
          { scalerParams := fitScalerWith sqrtF X
            trainScaled :=
              (splitRows (transformM (fitScalerWith sqrtF X) X) perm).1
            testScaled :=
              (splitRows (transformM (fitScalerWith sqrtF X) X) perm).2
            centroids := p.1
            nIter := p.2
            labels := assignLabels p.1
              ((splitRows (transformM (fitScalerWith sqrtF X) X) perm).1 ++
                (splitRows (transformM (fitScalerWith sqrtF X) X) perm).2)
            unscaledCenters :=
              inverseTransformM (fitScalerWith sqrtF X) p.1 })) ∧
    (∀ Y : Matrix, X.Perm Y → Rectangular X →
      fitScalerWith sqrtF X = fitScalerWith sqrtF Y) := by
  constructor
  · unfold runPipeline
    cases hk : kmeansFit 4 300
        (splitRows (transformM (fitScalerWith sqrtF X) X) perm).1 with
    | error e => simp [hk, Except.map]
    | ok p =>
      cases p with
      | mk cs n => simp [hk, Except.map]
  · intro Y h hX
    exact fitScalerWith_perm sqrtF X Y h hX

/-- Claim C1's population-invariance part applied concretely: fitting the
scaler on [[1],[2]] and on its reordering [[2],[1]] gives identical
parameters. -/
theorem claim_C1_witness :
    fitScalerWith id [[(1 : ℚ)], [2]] = fitScalerWith id [[(2 : ℚ)], [1]] :=
  (claim_C1 id [] [[(1 : ℚ)], [2]]).2 [[(2 : ℚ)], [1]] (by decide)
    (by unfold Rectangular; decide)

end MetabolicProfiling
